import Mathlib

/-!
Verification of the image-extractor repository against its specification.

The development shallowly embeds the Python sources:
  * `src/image_extractor/extraction.py`  (type sniffer, archive extraction)
  * `src/image_extractor/utils.py`       (filename sanitization)
  * `src/image_extractor/conversion.py`  (EMF conversion fallback chain)
  * `src/image_extractor/ocr.py`         (recognition renamer)
  * `src/image_extractor/main.py`        (pipeline orchestration, CLI)
  * `src/extract_word_images.py`         (the flat-script variant, `Flat.*`)

External collaborators (zipfile, subprocess engines, PIL, EasyOCR) are
modelled at their interface boundary: an environment record supplies each
collaborator call's outcome (`Except` for calls that may raise), and the
on-disk state is a map from paths to file sizes.  Character classes of
Python's `re` (`\w`, `\s`) are modelled over their ASCII fragment, matching
the spec's own `[A-Za-z0-9_-]` description.
-/

/-- A pathlib-style path inside the single output directory: the stem and the
extension (Python `Path.stem` / `Path.suffix`; the suffix includes the dot,
and is `""` for an extension-less name). -/
structure PPath where
  stem : String
  ext : String
deriving DecidableEq, Repr

/-- Python `Path.with_suffix`: replace the extension. -/
def withSuffix (p : PPath) (e : String) : PPath := ⟨p.stem, e⟩

/-- ASCII `str.lower()`. -/
def strLower (s : String) : String := String.mk (s.data.map Char.toLower)

/-- Signature `b'\x89PNG\r\n\x1a\n'`. -/
def pngMagic : List Nat := [0x89, 0x50, 0x4e, 0x47, 0x0d, 0x0a, 0x1a, 0x0a]

/-- Signature `b'\xff\xd8\xff'`. -/
def jpgMagic : List Nat := [0xff, 0xd8, 0xff]

/-- Signature `b'GIF87a'`. -/
def gif87Magic : List Nat := [0x47, 0x49, 0x46, 0x38, 0x37, 0x61]

/-- Signature `b'GIF89a'`. -/
def gif89Magic : List Nat := [0x47, 0x49, 0x46, 0x38, 0x39, 0x61]

/-- Signature `b'BM'`. -/
def bmpMagic : List Nat := [0x42, 0x4d]

/-- Signature `b'MM\x00*'` (big-endian TIFF). -/
def tiffMMMagic : List Nat := [0x4d, 0x4d, 0x00, 0x2a]

/-- Signature `b'II*\x00'` (little-endian TIFF). -/
def tiffIIMagic : List Nat := [0x49, 0x49, 0x2a, 0x00]

/-- Signature `b'\x01\x00\x00\x00'` (EMF). -/
def emfMagic : List Nat := [0x01, 0x00, 0x00, 0x00]

/-- Signature `b'\x00\x00\x01\x00'` (ICO). -/
def icoMagic : List Nat := [0x00, 0x00, 0x01, 0x00]

/-- The `MAGIC_NUMBERS` table of `extraction.py`, in insertion order. -/
def magicNumbers : List (List Nat × String) :=
  [ (pngMagic, ".png"), (jpgMagic, ".jpg"),
    (gif87Magic, ".gif"), (gif89Magic, ".gif"),
    (bmpMagic, ".bmp"), (tiffMMMagic, ".tiff"), (tiffIIMagic, ".tiff"),
    (emfMagic, ".emf"), (icoMagic, ".ico") ]

/-- Python `bytes.startswith`: does the header begin with the magic sequence? -/
def startsWithBytes : List Nat → List Nat → Bool
  | [], _ => true
  | _ :: _, [] => false
  | m :: ms, h :: hs => m == h && startsWithBytes ms hs

/-- The `for magic, ext in MAGIC_NUMBERS.items()` loop of
`get_file_extension`: return the extension of the first signature that the
header starts with. -/
def findMagic : List (List Nat × String) → List Nat → Option String
  | [], _ => none
  | me :: rest, header =>
    if startsWithBytes me.1 header then some me.2 else findMagic rest header

/-- A file as the sniffer sees it: the byte content that `open`/`read`
delivers (`none` when the read raises), plus the path's raw suffix. -/
structure FileInfo where
  content : Option (List Nat)
  suffix : String

/-- Model of `extraction.get_file_extension`: read a 32-byte header, scan
`MAGIC_NUMBERS` for a matching signature, otherwise normalize a `.emf`/`.wmf`
suffix to `.emf`, otherwise fall back to the lower-cased suffix; any
exception (modelled as `content = none`) also falls back to the lower-cased
suffix. -/
def get_file_extension (f : FileInfo) : String :=
  match f.content with
  | none => strLower f.suffix
  | some bytes =>
    let header := bytes.take 32
    match findMagic magicNumbers header with
    | some ext => ext
    | none =>
      if strLower f.suffix = ".emf" || strLower f.suffix = ".wmf" then ".emf"
      else strLower f.suffix

namespace Flat

/-- Model of `extract_word_images.identify_file_type`: read a 16-byte header and test
the signatures in the source's `if`/`elif` order; with no match the result is
the literal `"unknown"` (the extension is never consulted). -/
def identify_file_type (content : List Nat) : String :=
  let header := content.take 16
  if startsWithBytes pngMagic header then "png"
  else if startsWithBytes jpgMagic header then "jpg"
  else if startsWithBytes gif87Magic header || startsWithBytes gif89Magic header then "gif"
  else if startsWithBytes bmpMagic header then "bmp"
  else if startsWithBytes emfMagic header then "emf"
  else if header.take 4 == icoMagic then "ico"
  else "unknown"

end Flat

/-- The characters removed by `re.sub(r'[<>:"/\\|?*]', '', text)`. -/
def illegalChars : List Char := ['<', '>', ':', '"', '/', '\\', '|', '?', '*']

/-- Membership in the illegal-character class. -/
def isIllegalChar (c : Char) : Bool := illegalChars.contains c

/-- The ASCII fragment of Python's `\s` class. -/
def isSpaceChar (c : Char) : Bool :=
  c == ' ' || c == '\t' || c == '\n' || c == '\r' || c == '\x0b' || c == '\x0c'

/-- The ASCII fragment of Python's `\w` class: alphanumerics and `_`. -/
def isWordChar (c : Char) : Bool := c.isAlphanum || c == '_'

/-- The characters kept by `re.sub(r'[^\w\-_]', '', text)`. -/
def keepChar (c : Char) : Bool := isWordChar c || c == '-' || c == '_'

/-- Helper for `re.sub(r'\s+', '_', text)`: the flag records whether the
previous character belonged to the current whitespace run. -/
def collapseAux : Bool → List Char → List Char
  | _, [] => []
  | prev, c :: cs =>
    if isSpaceChar c then
      if prev then collapseAux true cs else '_' :: collapseAux true cs
    else c :: collapseAux false cs

/-- Model of `re.sub(r'\s+', '_', text)`: each maximal whitespace run becomes one `_`. -/
def collapseSpaces (l : List Char) : List Char := collapseAux false l

/-- Drop leading underscores. -/
def dropU (l : List Char) : List Char := l.dropWhile (fun c => c == '_')

/-- Python `text.strip('_')`: drop underscores from both ends. -/
def stripUnderscores (l : List Char) : List Char :=
  ((dropU l).reverse.dropWhile (fun c => c == '_')).reverse

/-- Model of `utils.sanitize_filename` on the character list: remove illegal
characters, collapse whitespace runs to `_`, keep only word characters and
`-`/`_`, strip underscores at the ends, fall back to `"untitled"` when
empty, and finally truncate to 50 characters.  `ocr.process_image_threaded`
inlines this identical chain, and the flat script's `sanitize_filename`
is the same with its `max_length` parameter always left at 50. -/
def sanitizeList (s : List Char) : List Char :=
  let t1 := s.filter (fun c => !isIllegalChar c)
  let t2 := collapseSpaces t1
  let t3 := t2.filter keepChar
  let t4 := stripUnderscores t3
  if t4.isEmpty then "untitled".data else t4.take 50

/-- Model of `utils.sanitize_filename` on strings. -/
def sanitize_filename (s : String) : String := String.mk (sanitizeList s.data)

/-- The candidate filenames probed by the rename-collision loop:
`base.ext` first, then `base_1.ext`, `base_2.ext`, … (the f-string
`f"{new_name}_{counter}{suffix}"`). -/
def cand (base ext : String) : Nat → PPath
  | 0 => ⟨base, ext⟩
  | k + 1 => ⟨base ++ "_" ++ Nat.repr (k + 1), ext⟩

/-- The `while new_path.exists() and new_path != original_path` probe loop,
expressed over a directory listing `fs`.  The fuel argument only bounds the
recursion: `fs.length + 1` pairwise-distinct candidates always include a
free one, so with that fuel the loop result equals the Python loop's. -/
def findSlotAux (fs : List PPath) (orig : PPath) (c : Nat → PPath) : Nat → Nat → Nat
  | 0, k => k
  | fuel + 1, k =>
    if c k ∈ fs ∧ c k ≠ orig then findSlotAux fs orig c fuel (k + 1) else k

/-- Index of the first candidate that either does not exist or is the
file's own original path. -/
def slotIdx (fs : List PPath) (orig : PPath) (c : Nat → PPath) : Nat :=
  findSlotAux fs orig c (fs.length + 1) 0

/-- The collision-free path chosen for base name `base` and the original
file `orig` (the extension is `original_path.suffix`). -/
def findNewPath (fs : List PPath) (orig : PPath) (base : String) : PPath :=
  cand base orig.ext (slotIdx fs orig (cand base orig.ext))

/-- Effect of `original_path.rename(new_path)` on the directory listing. -/
def renameFile (fs : List PPath) (old new : PPath) : List PPath :=
  if new = old then fs else new :: fs.erase old

/-- On-disk state of the output directory: each path maps to its size in
bytes, or `none` when no such file exists. -/
def Fs : Type := PPath → Option Nat

/-- Create or overwrite a file of size `n` at path `q`. -/
def setFile (fs : Fs) (q : PPath) (n : Nat) : Fs :=
  fun r => if r = q then some n else fs r

/-- Apply an engine's write effect at the output path: `none` means the
engine produced nothing there. -/
def applyWrite (fs : Fs) (q : PPath) (o : Option Nat) : Fs :=
  match o with
  | none => fs
  | some n => setFile fs q n

/-- One `subprocess.run` call made by a conversion chain: the command name
and the `timeout` keyword it was (or was not) given. -/
structure Invocation where
  engine : String
  timeoutSec : Option Nat
deriving DecidableEq, Repr

/-- Result of a conversion chain: the converted path (or `none`), the disk
state afterwards, and the external-process invocations that were made. -/
structure ConvResult where
  res : Option PPath
  fs : Fs
  trace : List Invocation

/-- Collaborator outcomes for one run of `conversion.convert_emf_to_png`.
Engines only ever write at the chain's PNG output path (the §6 collaborator
contract: `convert` produces PNG output and nothing else); an `Except.error`
models a raised exception, with no output written. -/
structure ConvEnv where
  /-- Does `import aspose.words` succeed? -/
  asposeImported : Bool
  /-- Outcome of the Aspose build/render; on success the PNG's size. -/
  asposeRun : Except String Nat
  /-- Is `os.uname().sysname == 'Darwin'`? -/
  isDarwin : Bool
  /-- Does the fixed macOS LibreOffice bundle path exist? -/
  macSoffice : Bool
  /-- Does `shutil.which('soffice')` find a binary? -/
  hasSoffice : Bool
  /-- Does `shutil.which('libreoffice')` find a binary? -/
  hasLibre : Bool
  /-- Outcome of the LibreOffice run under `check=True`: an exception, or
  exit 0 together with the write made at the PNG path. -/
  loRun : Except String (Option Nat)
  /-- Does `shutil.which('magick')` find a binary? -/
  hasMagick : Bool
  /-- Does `shutil.which('convert')` find a binary? -/
  hasConvert : Bool
  /-- Outcome of the ImageMagick run under `check=True`. -/
  imRun : Except String (Option Nat)
  /-- Outcome of the Pillow open/save (an `ImportError` of PIL is one of
  the exceptions this `except Exception` swallows); on success the size. -/
  pilRun : Except String Nat

/-- Method 4 of `conversion.convert_emf_to_png`: Pillow `open`/`save`,
returning the PNG path on success, else `None`. -/
def convMethod4 (env : ConvEnv) (pngPath : PPath) (fs : Fs) (tr : List Invocation) :
    ConvResult :=
  match env.pilRun with
  | .ok n => ⟨some pngPath, setFile fs pngPath n, tr⟩
  | .error _ => ⟨none, fs, tr⟩

/-- Method 3 of `conversion.convert_emf_to_png`: ImageMagick via `magick`
or `convert`, invoked with no `timeout`; success is declared as soon as the
PNG path exists afterwards. -/
def convMethod3 (env : ConvEnv) (pngPath : PPath) (fs : Fs) (tr : List Invocation) :
    ConvResult :=
  let imCmd : Option String :=
    if env.hasMagick then some "magick"
    else if env.hasConvert then some "convert"
    else none
  match imCmd with
  | none => convMethod4 env pngPath fs tr
  | some c =>
    let tr := tr ++ [⟨c, none⟩]
    match env.imRun with
    | .error _ => convMethod4 env pngPath fs tr
    | .ok o =>
      let fs1 := applyWrite fs pngPath o
      if (fs1 pngPath).isSome then ⟨some pngPath, fs1, tr⟩
      else convMethod4 env pngPath fs1 tr

/-- Method 2 of `conversion.convert_emf_to_png`: locate LibreOffice (the
macOS bundle path first, then `soffice`, then `libreoffice` on the search
path) and, if found, run it headless with no `timeout`; success is declared
as soon as the PNG path exists afterwards. -/
def convMethod2 (env : ConvEnv) (pngPath : PPath) (fs : Fs) : ConvResult :=
  let loCmd : Option String :=
    if env.isDarwin && env.macSoffice then
      some "/Applications/LibreOffice.app/Contents/MacOS/soffice"
    else if env.hasSoffice then some "soffice"
    else if env.hasLibre then some "libreoffice"
    else none
  match loCmd with
  | none => convMethod3 env pngPath fs []
  | some c =>
    let tr := [(⟨c, none⟩ : Invocation)]
    match env.loRun with
    | .error _ => convMethod3 env pngPath fs tr
    | .ok o =>
      let fs1 := applyWrite fs pngPath o
      if (fs1 pngPath).isSome then ⟨some pngPath, fs1, tr⟩
      else convMethod3 env pngPath fs1 tr

/-- Model of `conversion.convert_emf_to_png` (the package form): try
Aspose.Words, then LibreOffice, then ImageMagick, then Pillow, returning
the first success and `None` when every attempt fails or is skipped. -/
def convert_emf_to_png (env : ConvEnv) (emfPath : PPath) (fs : Fs) : ConvResult :=
  let pngPath := withSuffix emfPath ".png"
  if env.asposeImported then
    match env.asposeRun with
    | .ok n => ⟨some pngPath, setFile fs pngPath n, []⟩
    | .error _ => convMethod2 env pngPath fs
  else convMethod2 env pngPath fs

/-- Proposition: every engine of the package chain is unavailable (Aspose
not importable, no LibreOffice found, no ImageMagick found, Pillow raising). -/
def allEnginesUnavailable (env : ConvEnv) : Prop :=
  env.asposeImported = false ∧
  (env.isDarwin = false ∨ env.macSoffice = false) ∧
  env.hasSoffice = false ∧ env.hasLibre = false ∧
  env.hasMagick = false ∧ env.hasConvert = false ∧
  ∃ e, env.pilRun = .error e

/-- Test `png_path.exists() and png_path.stat().st_size > 0` on the PNG
path's state. -/
def sizePos (o : Option Nat) : Bool :=
  match o with
  | some n => decide (0 < n)
  | none => false

namespace Flat

/-- Collaborator outcomes for one run of the flat script's
`convert_emf_to_png`.  Subprocess outcomes carry the process's return code
and the write made at the PNG path; an `Except.error` models a raised
exception (`TimeoutExpired`, `FileNotFoundError`, …) with nothing written. -/
structure ConvEnv where
  /-- Does `import aspose.words` succeed? -/
  asposeImported : Bool
  /-- Outcome of the Aspose build/render; on success the PNG's size. -/
  asposeRun : Except String Nat
  /-- Does the fixed macOS LibreOffice bundle path exist? -/
  macSoffice : Bool
  /-- Outcome of the LibreOffice run (no `check`): return code and write. -/
  loRun : Except String (Nat × Option Nat)
  /-- Outcome of running `magick`. -/
  magickRun : Except String (Nat × Option Nat)
  /-- Outcome of running `convert`. -/
  convertRun : Except String (Nat × Option Nat)
  /-- Does `from PIL import Image, ImageFile` succeed? -/
  pilImported : Bool
  /-- Does `import pillow_emf` succeed (`has_emf_support`)? -/
  pilEmfPlugin : Bool
  /-- Outcome of the Pillow open/convert/save; on success the size. -/
  pilRun : Except String Nat

/-- Method 4 of the flat chain: Pillow, attempted only when PIL imports and
the `pillow_emf` plugin is present, and successful only when the written PNG
exists and is non-empty. -/
def convMethod4 (env : ConvEnv) (pngPath : PPath) (fs : Fs) (tr : List Invocation) :
    ConvResult :=
  if env.pilImported && env.pilEmfPlugin then
    match env.pilRun with
    | .error _ => ⟨none, fs, tr⟩
    | .ok n =>
      let fs1 := setFile fs pngPath n
      if sizePos (fs1 pngPath) then ⟨some pngPath, fs1, tr⟩ else ⟨none, fs1, tr⟩
  else ⟨none, fs, tr⟩

/-- The body of the flat chain's `for cmd_base in ['magick', 'convert']`
loop: run the tool with `timeout=30` and declare success only on return
code 0 with an existing, non-empty PNG. -/
def convTryIM (run : Except String (Nat × Option Nat)) (c : String)
    (pngPath : PPath) (fs : Fs) (tr : List Invocation)
    (next : Fs → List Invocation → ConvResult) : ConvResult :=
  let tr := tr ++ [⟨c, some 30⟩]
  match run with
  | .error _ => next fs tr
  | .ok (rc, o) =>
    let fs1 := applyWrite fs pngPath o
    if rc == 0 && sizePos (fs1 pngPath) then ⟨some pngPath, fs1, tr⟩
    else next fs1 tr

/-- Method 3 of the flat chain: `magick`, then `convert`. -/
def convMethod3 (env : ConvEnv) (pngPath : PPath) (fs : Fs) (tr : List Invocation) :
    ConvResult :=
  convTryIM env.magickRun "magick" pngPath fs tr (fun fs1 tr1 =>
    convTryIM env.convertRun "convert" pngPath fs1 tr1 (fun fs2 tr2 =>
      convMethod4 env pngPath fs2 tr2))

/-- Method 2 of the flat chain: the macOS LibreOffice bundle binary only,
run with `timeout=60`, successful only on return code 0 with an existing,
non-empty PNG. -/
def convMethod2 (env : ConvEnv) (pngPath : PPath) (fs : Fs) : ConvResult :=
  if env.macSoffice then
    let tr := [(⟨"soffice", some 60⟩ : Invocation)]
    match env.loRun with
    | .error _ => convMethod3 env pngPath fs tr
    | .ok (rc, o) =>
      let fs1 := applyWrite fs pngPath o
      if rc == 0 && sizePos (fs1 pngPath) then ⟨some pngPath, fs1, tr⟩
      else convMethod3 env pngPath fs1 tr
  else convMethod3 env pngPath fs []

/-- Model of the flat script's `convert_emf_to_png`: Aspose.Words, then the
macOS LibreOffice binary, then ImageMagick, then Pillow with the EMF plugin;
every success is verified to have produced a non-empty PNG. -/
def convert_emf_to_png (env : ConvEnv) (emfPath : PPath) (fs : Fs) : ConvResult :=
  let pngPath := withSuffix emfPath ".png"
  if env.asposeImported then
    match env.asposeRun with
    | .error _ => convMethod2 env pngPath fs
    | .ok n =>
      let fs1 := setFile fs pngPath n
      if sizePos (fs1 pngPath) then ⟨some pngPath, fs1, []⟩
      else convMethod2 env pngPath fs1
  else convMethod2 env pngPath fs

end Flat

/-- One archive entry: the directory part of its entry name (`word/media`
for media entries), its base filename, and its byte content. -/
structure ZEntry where
  dir : String
  base : PPath
  content : List Nat

/-- An opened archive: its entry list, or `none` when `zipfile.ZipFile`
raises `BadZipFile` because the input is not a valid archive. -/
def Archive : Type := Option (List ZEntry)

/-- Final output path of one extracted entry: the entry's base filename is
kept, and the extension is corrected to the sniffed one. -/
def extractedPath (e : ZEntry) : PPath :=
  withSuffix e.base (get_file_extension ⟨some e.content, e.base.ext⟩)

/-- Model of `extraction.extract_images_from_docx` (the package form): on a
corrupt archive the `except zipfile.BadZipFile` handler prints a message and
the function returns the (empty) `extracted_files` list — the error does
not propagate; otherwise entries under `word/media/` are copied out and
their extensions corrected via the sniffer. -/
def extract_images_from_docx (archive : Archive) : List PPath :=
  match archive with
  | none => []
  | some entries =>
    let media := entries.filter (fun e => e.dir == "word/media")
    media.map extractedPath

/-- Exit status of the package CLI (`main.main`): `1` when the input file
is missing, otherwise `process_word_document` runs to completion — a corrupt
archive is absorbed inside extraction — and the process exits with `0`.
The conversion and renaming stages never raise past their task boundaries
(their exceptions are caught in the worker loops), so they cannot change
the exit status and are elided here. -/
def mainExit (inputExists : Bool) (archive : Archive) : Nat :=
  if !inputExists then 1
  else
    let _extracted := extract_images_from_docx archive
    0

namespace Flat

/-- Final output path of one extracted entry in the flat script: renamed to
the identified type's extension unless the type is unknown or the name
already carries it. -/
def extractedPath (e : ZEntry) : PPath :=
  let t := identify_file_type e.content
  if t ≠ "unknown" ∧ e.base.ext ≠ "." ++ t then withSuffix e.base ("." ++ t)
  else e.base

/-- Model of the flat script's `extract_images_from_docx`: raises
`FileNotFoundError` when the document is missing and lets `BadZipFile`
propagate on a corrupt archive. -/
def extract_images_from_docx (docxExists : Bool) (archive : Archive) :
    Except String (List PPath) :=
  if !docxExists then .error "FileNotFoundError"
  else
    match archive with
    | none => .error "BadZipFile"
    | some entries =>
      let media := entries.filter (fun e => e.dir == "word/media")
      .ok (media.map extractedPath)

/-- Exit status of the flat CLI: its `main` wraps `process_word_document`
in `try/except` and calls `sys.exit(1)` on any exception, so a corrupt
archive (propagating `BadZipFile`) yields exit status 1. -/
def mainExit (docxExists : Bool) (archive : Archive) : Nat :=
  match extract_images_from_docx docxExists archive with
  | .error _ => 1
  | .ok _ => 0

end Flat

/-- A decoded raster image as PIL presents it. -/
structure PImg where
  mode : String
  width : Nat
  height : Nat

/-- Collaborator outcomes for one image of the recognition renamer; each
`Except.error` models a raised exception at that step. -/
structure OcrEnv where
  /-- Outcome of `Image.open`. -/
  openImage : Except String PImg
  /-- Outcome of `img.convert('RGB')`. -/
  convertRGB : PImg → Except String PImg
  /-- Outcome of `img.resize(new_size, LANCZOS)`. -/
  resize : PImg → Except String PImg
  /-- Outcome of the serialized `reader.readtext(img_np, detail=0)`. -/
  readtext : PImg → Except String (List String)
  /-- Outcome of `original_path.rename(new_path)` in the collector loop. -/
  renameOp : Except String Unit

/-- The body of `ocr.process_image_threaded`'s `try` block up to the OCR
call: decode, normalize to RGB when needed, downscale when a dimension
exceeds 500, and run the (lock-serialized) recognition; an `Except.error`
anywhere is the exception the wrapper catches. -/
def ocrRun (env : OcrEnv) : Except String (List String) := do
  let img ← env.openImage
  let img ← if img.mode ≠ "RGB" then env.convertRGB img else .ok img
  let img ← if img.width > 500 || img.height > 500 then env.resize img else .ok img
  env.readtext img

/-- Model of `ocr.process_image_threaded`: run the decode/OCR pipeline,
join the recognized fragments with spaces and sanitize them into a
candidate name; any exception in the `try` block degrades to `None`, as
does an empty recognition result. -/
def process_image_threaded (env : OcrEnv) (p : PPath) :
    Option (PPath × String × String) :=
  match ocrRun env with
  | .error _ => none
  | .ok frags =>
    if frags.isEmpty then none
    else
      let fullText := String.intercalate " " frags
      let newName := sanitize_filename fullText
      some (p, newName, fullText)

/-- Processing of one completed future in `main.process_word_document`'s
renaming loop: a `None` result or the `"untitled"` sentinel leaves the file
alone; otherwise the collision loop picks the target and the rename is
attempted, any exception being caught by the loop's `except` so the
original path survives.  Returns the new listing and the image's final
path. -/
def renameOne (fs : List PPath) (p : PPath) (env : OcrEnv) : List PPath × PPath :=
  match process_image_threaded env p with
  | none => (fs, p)
  | some (orig, newName, _) =>
    if newName = "untitled" then (fs, p)
    else
      let target := findNewPath fs orig newName
      match env.renameOp with
      | .error _ => (fs, p)
      | .ok _ => (renameFile fs orig target, target)

/-- The renaming stage over all submitted images (the join-barrier loop of
`main.process_word_document`, embedded sequentially): every task completes
and yields a final path. -/
def renameStage : List (PPath × OcrEnv) → List PPath → List PPath × List PPath
  | [], fs => (fs, [])
  | t :: rest, fs =>
    let step := renameOne fs t.1 t.2
    let tail := renameStage rest step.1
    (tail.1, step.2 :: tail.2)

/-- Proposition: some step of this image's task raises an exception
(decode, color-normalize, resize or OCR — collapsing the task's result to
`None` — or the final rename). -/
def taskFails (t : PPath × OcrEnv) : Prop :=
  process_image_threaded t.2 t.1 = none ∨ ∃ e, t.2.renameOp = .error e

/-! Helper lemmas about the byte sniffer. -/

theorem startsWithBytes_append_self (m rest : List Nat) :
    startsWithBytes m (m ++ rest) = true := by
  induction m with
  | nil => rfl
  | cons a ms ih => simp [startsWithBytes, ih]

theorem startsWithBytes_take (m h : List Nat) (n : Nat) (hn : m.length ≤ n) :
    startsWithBytes m (h.take n) = startsWithBytes m h := by
  induction m generalizing h n with
  | nil => rfl
  | cons a ms ih =>
    cases n with
    | zero => simp at hn
    | succ n =>
      cases h with
      | nil => rfl
      | cons b hs =>
        simp only [List.take_succ_cons, startsWithBytes]
        rw [ih hs n (by simpa using hn)]

theorem startsWithBytes_iff_take (m h : List Nat) :
    startsWithBytes m h = true ↔ h.take m.length = m := by
  induction m generalizing h with
  | nil => simp [startsWithBytes]
  | cons a ms ih =>
    cases h with
    | nil => simp [startsWithBytes]
    | cons b hs =>
      simp only [startsWithBytes, List.length_cons, List.take_succ_cons,
        List.cons.injEq, Bool.and_eq_true, beq_iff_eq, ih]
      constructor
      · rintro ⟨h1, h2⟩
        exact ⟨h1.symm, h2⟩
      · rintro ⟨h1, h2⟩
        exact ⟨h1.symm, h2⟩

theorem findMagic_take (tbl : List (List Nat × String)) (bytes : List Nat) (n : Nat)
    (h : ∀ me ∈ tbl, me.1.length ≤ n) :
    findMagic tbl (bytes.take n) = findMagic tbl bytes := by
  induction tbl with
  | nil => rfl
  | cons me rest ih =>
    simp only [findMagic, startsWithBytes_take me.1 bytes n (h me (by simp))]
    rw [ih (fun x hx => h x (by simp [hx]))]

theorem findMagic_eq_none (tbl : List (List Nat × String)) (bytes : List Nat)
    (h : ∀ me ∈ tbl, startsWithBytes me.1 bytes = false) :
    findMagic tbl bytes = none := by
  induction tbl with
  | nil => rfl
  | cons me rest ih =>
    simp only [findMagic, h me (by simp)]
    exact ih (fun x hx => h x (by simp [hx]))

/-- Claim C10: `get_file_extension` is total; for any unreadable file (every
exception from `open`/`read` is caught) it returns the path's existing
suffix lower-cased — the empty string for an extension-less path — and not
a distinguished unknown tag. -/
theorem get_file_extension_unreadable :
    (∀ sfx : String, get_file_extension ⟨none, sfx⟩ = strLower sfx) ∧
    get_file_extension ⟨none, ""⟩ = "" ∧
    get_file_extension ⟨none, ".XYZ"⟩ = ".xyz" ∧ ".xyz" ≠ "unknown" :=
  ⟨fun _ => rfl, rfl, by decide, by decide⟩

/-- Claim C1: evidence of the divergence.  On a corrupt archive the package
form's `extract_images_from_docx` swallows `BadZipFile` and returns the
empty list, and the package CLI exits with status 0 although the input file
exists and is not a valid archive; the flat script, matching the spec,
propagates the error and exits 1. -/
theorem corrupt_archive_not_fatal :
    extract_images_from_docx none = [] ∧
    mainExit true none = 0 ∧
    Flat.mainExit true none = 1 :=
  ⟨rfl, rfl, rfl⟩

/-- Claim C9: for each entry of the signature table (PNG, JPEG, GIF87a,
GIF89a, BMP, both TIFF byte orders, EMF, ICO), a file whose content begins
with exactly that byte prefix is sniffed to the corresponding tag — the
first matching entry of the table — whatever its stored extension. -/
theorem sniffer_known_signatures :
    ∀ me ∈ magicNumbers, ∀ (rest : List Nat) (sfx : String),
      get_file_extension ⟨some (me.1 ++ rest), sfx⟩ = me.2 := by
  intro me hme rest sfx
  have htake : ∀ bytes : List Nat,
      findMagic magicNumbers (bytes.take 32) = findMagic magicNumbers bytes :=
    fun bytes => findMagic_take _ bytes 32 (by decide)
  fin_cases hme <;>
    simp [get_file_extension, htake, magicNumbers, findMagic,
      startsWithBytes_append_self, startsWithBytes,
      pngMagic, jpgMagic, gif87Magic, gif89Magic, bmpMagic,
      tiffMMMagic, tiffIIMagic, emfMagic, icoMagic]

/-- Witness for C9 at the PNG entry with empty tail and a misleading
extension. -/
theorem sniffer_known_signatures_witness :
    (pngMagic, ".png") ∈ magicNumbers ∧
    get_file_extension ⟨some (pngMagic ++ []), ".bin"⟩ = ".png" :=
  ⟨by decide, sniffer_known_signatures (pngMagic, ".png") (by decide) [] ".bin"⟩

/-- Counterexample to claim C5: a file whose bytes match no signature and
whose extension `.xyz` is unrecognized is sniffed by the package's
`get_file_extension` to `".xyz"` — the extension is echoed back, not the
`"unknown"` tag. -/
theorem sniffer_unknown_counterexample :
    get_file_extension ⟨some [0, 1, 2, 3, 4, 5], ".xyz"⟩ = ".xyz" ∧
    (".xyz" : String) ≠ "unknown" := by
  constructor
  · decide
  · decide

/-- Claim C5 as amended: on a file whose leading bytes match no known
signature, the flat script's `identify_file_type` returns `"unknown"`, while
the package's `get_file_extension` instead falls back to the file's existing
extension lower-cased (after `.emf`/`.wmf` normalization, excluded here by
the unrecognized-extension hypothesis). -/
theorem sniffer_unknown_fallback (bytes : List Nat) (sfx : String)
    (hno : ∀ me ∈ magicNumbers, startsWithBytes me.1 bytes = false)
    (hemf : strLower sfx ≠ ".emf") (hwmf : strLower sfx ≠ ".wmf") :
    Flat.identify_file_type bytes = "unknown" ∧
    get_file_extension ⟨some bytes, sfx⟩ = strLower sfx := by
  have h16 : ∀ m ∈ magicNumbers, startsWithBytes m.1 (bytes.take 16) = false := by
    intro m hm
    rw [startsWithBytes_take m.1 bytes 16]
    · exact hno m hm
    · fin_cases hm <;> decide
  constructor
  · have hico : ((bytes.take 16).take 4 == icoMagic) = false := by
      have := hno (icoMagic, ".ico") (by decide)
      rw [List.take_take]
      have hlen : (4 : Nat) ⊓ 16 = icoMagic.length := by decide
      rw [hlen]
      rw [beq_eq_false_iff_ne]
      intro hEq
      rw [(startsWithBytes_iff_take icoMagic bytes).mpr hEq] at this
      exact Bool.true_eq_false.mp this
    simp only [Flat.identify_file_type,
      h16 (pngMagic, ".png") (by decide), h16 (jpgMagic, ".jpg") (by decide),
      h16 (gif87Magic, ".gif") (by decide), h16 (gif89Magic, ".gif") (by decide),
      h16 (bmpMagic, ".bmp") (by decide), h16 (emfMagic, ".emf") (by decide),
      hico, Bool.false_eq_true, if_false, Bool.or_self]
  · simp only [get_file_extension]
    rw [findMagic_take magicNumbers bytes 32 (by decide),
      findMagic_eq_none magicNumbers bytes hno]
    simp [hemf, hwmf]

/-- Witness for C5's amended theorem at a concrete signature-less file. -/
theorem sniffer_unknown_fallback_witness :
    (∀ me ∈ magicNumbers, startsWithBytes me.1 [0, 1, 2, 3, 4, 5] = false) ∧
    Flat.identify_file_type [0, 1, 2, 3, 4, 5] = "unknown" ∧
    get_file_extension ⟨some [0, 1, 2, 3, 4, 5], ".xyz"⟩ = strLower ".xyz" :=
  ⟨by decide,
   sniffer_unknown_fallback [0, 1, 2, 3, 4, 5] ".xyz" (by decide)
     (by decide) (by decide)⟩

/-! Helper lemmas about the package conversion chain. -/

theorem applyWrite_ne (fs : Fs) (png q : PPath) (o : Option Nat) (hq : q ≠ png) :
    applyWrite fs png o q = fs q := by
  cases o with
  | none => rfl
  | some n => simp [applyWrite, setFile, hq]

theorem convMethod4_fs_ne (env : ConvEnv) (png : PPath) (fs : Fs)
    (tr : List Invocation) (q : PPath) (hq : q ≠ png) :
    (convMethod4 env png fs tr).fs q = fs q := by
  rcases h : env.pilRun with n | e <;> simp [convMethod4, h, setFile, hq]

theorem convMethod3_fs_ne (env : ConvEnv) (png : PPath) (fs : Fs)
    (tr : List Invocation) (q : PPath) (hq : q ≠ png) :
    (convMethod3 env png fs tr).fs q = fs q := by
  cases hM : env.hasMagick <;> cases hC : env.hasConvert <;>
    rcases hr : env.imRun with e | o <;>
    simp [convMethod3, hM, hC, hr, convMethod4_fs_ne _ _ _ _ _ hq,
      applyWrite_ne _ _ _ _ hq] <;>
    (try split) <;>
    simp [convMethod4_fs_ne _ _ _ _ _ hq, applyWrite_ne _ _ _ _ hq]

theorem convMethod2_fs_ne (env : ConvEnv) (png : PPath) (fs : Fs)
    (q : PPath) (hq : q ≠ png) :
    (convMethod2 env png fs).fs q = fs q := by
  cases hD : env.isDarwin <;> cases hm : env.macSoffice <;>
    cases hS : env.hasSoffice <;> cases hL : env.hasLibre <;>
    rcases hr : env.loRun with e | o <;>
    simp [convMethod2, hD, hm, hS, hL, hr, convMethod3_fs_ne _ _ _ _ _ hq,
      applyWrite_ne _ _ _ _ hq] <;>
    (try split) <;>
    simp [convMethod3_fs_ne _ _ _ _ _ hq, applyWrite_ne _ _ _ _ hq]

theorem convert_fs_ne (env : ConvEnv) (p : PPath) (fs : Fs) (q : PPath)
    (hq : q ≠ withSuffix p ".png") :
    (convert_emf_to_png env p fs).fs q = fs q := by
  cases ha : env.asposeImported <;> rcases hr : env.asposeRun with e | n <;>
    simp [convert_emf_to_png, ha, hr, convMethod2_fs_ne _ _ _ _ hq,
      setFile, hq]

/-- Claim C2: the conversion chain never deletes or modifies the original
metafile — its disk state is preserved by every run of the chain — and when
every engine fails or is skipped (in particular when all engines are
unavailable) the chain returns no converted path and leaves the disk
entirely untouched. -/
theorem conversion_preserves_original (env : ConvEnv) (p : PPath) (fs : Fs)
    (hp : p.ext ≠ ".png") :
    (convert_emf_to_png env p fs).fs p = fs p ∧
    (allEnginesUnavailable env →
      (convert_emf_to_png env p fs).res = none ∧
      (convert_emf_to_png env p fs).fs = fs) := by
  constructor
  · exact convert_fs_ne env p fs p (by
      intro h
      exact hp (congrArg PPath.ext h))
  · rintro ⟨hA, hDm, hS, hL, hM, hC, e, hpil⟩
    have hlo : (env.isDarwin && env.macSoffice) = false := by
      rcases hDm with h | h <;> simp [h]
    refine ⟨?_, ?_⟩ <;>
      simp [convert_emf_to_png, convMethod2, convMethod3, convMethod4,
        hA, hlo, hS, hL, hM, hC, hpil]

/-- Witness for C2: a concrete environment in which no engine is available. -/
theorem conversion_preserves_original_witness :
    ((⟨"image3", ".emf"⟩ : PPath).ext ≠ ".png") ∧
    allEnginesUnavailable
      ⟨false, .error "skip", false, false, false, false, .error "skip",
        false, false, .error "skip", .error "ImportError"⟩ ∧
    (convert_emf_to_png
      ⟨false, .error "skip", false, false, false, false, .error "skip",
        false, false, .error "skip", .error "ImportError"⟩
      ⟨"image3", ".emf"⟩ (fun _ => none)).res = none ∧
    (convert_emf_to_png
      ⟨false, .error "skip", false, false, false, false, .error "skip",
        false, false, .error "skip", .error "ImportError"⟩
      ⟨"image3", ".emf"⟩ (fun _ => none)).fs = (fun _ => none) := by
  have hu : allEnginesUnavailable
      ⟨false, .error "skip", false, false, false, false, .error "skip",
        false, false, .error "skip", .error "ImportError"⟩ :=
    ⟨rfl, Or.inl rfl, rfl, rfl, rfl, rfl, "ImportError", rfl⟩
  have h := conversion_preserves_original
      ⟨false, .error "skip", false, false, false, false, .error "skip",
        false, false, .error "skip", .error "ImportError"⟩
      ⟨"image3", ".emf"⟩ (fun _ => none) (by decide)
  exact ⟨by decide, hu, (h.2 hu).1, (h.2 hu).2⟩

/-! Helper lemmas about the invocation traces of the two chains. -/

theorem convMethod4_trace (env : ConvEnv) (png : PPath) (fs : Fs)
    (tr : List Invocation) : (convMethod4 env png fs tr).trace = tr := by
  rcases h : env.pilRun with e | n <;> simp [convMethod4, h]

theorem convMethod3_trace (env : ConvEnv) (png : PPath) (fs : Fs)
    (tr : List Invocation) (inv : Invocation)
    (hmem : inv ∈ (convMethod3 env png fs tr).trace) :
    inv ∈ tr ∨ inv.timeoutSec = none := by
  unfold convMethod3 at hmem
  rcases hM : env.hasMagick with _ | _ <;> rcases hC : env.hasConvert with _ | _ <;>
    rcases hr : env.imRun with e | o <;>
    simp only [hM, hC, hr, Bool.false_eq_true, if_false, if_true,
      convMethod4_trace, reduceIte] at hmem <;>
    (try split at hmem) <;>
    (try simp only [convMethod4_trace, List.mem_append,
      List.mem_singleton] at hmem) <;>
    first
    | exact Or.inl hmem
    | (rcases hmem with h | h
       · exact Or.inl h
       · subst h; exact Or.inr rfl)

theorem convMethod2_trace (env : ConvEnv) (png : PPath) (fs : Fs)
    (inv : Invocation) (hmem : inv ∈ (convMethod2 env png fs).trace) :
    inv.timeoutSec = none := by
  unfold convMethod2 at hmem
  rcases hD : env.isDarwin with _ | _ <;> rcases hm : env.macSoffice with _ | _ <;>
    rcases hS : env.hasSoffice with _ | _ <;> rcases hL : env.hasLibre with _ | _ <;>
    rcases hr : env.loRun with e | o <;>
    simp only [hD, hm, hS, hL, hr, Bool.false_eq_true, Bool.true_and,
      Bool.false_and, Bool.and_false, Bool.and_self, if_false, if_true,
      reduceIte] at hmem <;>
    (try split at hmem) <;>
    first
    | (rcases convMethod3_trace _ _ _ _ _ hmem with h | h
       · simp only [List.mem_singleton] at h
         subst h
         rfl
       · exact h)
    | (simp only [List.mem_singleton] at hmem; subst hmem; rfl)
    | (rcases convMethod3_trace _ _ _ _ _ hmem with h | h
       · simp at h
       · exact h)

theorem flat_convMethod4_trace (env : Flat.ConvEnv) (png : PPath) (fs : Fs)
    (tr : List Invocation) (inv : Invocation)
    (hmem : inv ∈ (Flat.convMethod4 env png fs tr).trace) : inv ∈ tr := by
  unfold Flat.convMethod4 at hmem
  rcases hip : (env.pilImported && env.pilEmfPlugin) with _ | _ <;>
    rcases hr : env.pilRun with e | n <;>
    simp only [hip, hr, Bool.false_eq_true, if_false, if_true, reduceIte] at hmem <;>
    (try split at hmem) <;> exact hmem

theorem flat_convTryIM_trace (Q : Prop) (run : Except String (Nat × Option Nat))
    (c : String) (png : PPath) (fs : Fs) (tr : List Invocation)
    (next : Fs → List Invocation → ConvResult) (inv : Invocation)
    (hnext : ∀ fs1 tr1, inv ∈ (next fs1 tr1).trace → inv ∈ tr1 ∨ Q)
    (hmem : inv ∈ (Flat.convTryIM run c png fs tr next).trace) :
    inv ∈ tr ∨ inv = ⟨c, some 30⟩ ∨ Q := by
  unfold Flat.convTryIM at hmem
  rcases hr : run with e | ⟨rc, o⟩ <;> simp only [hr] at hmem
  · rcases hnext _ _ hmem with h | h
    · rcases List.mem_append.mp h with h | h
      · exact Or.inl h
      · exact Or.inr (Or.inl (List.mem_singleton.mp h))
    · exact Or.inr (Or.inr h)
  · split at hmem
    · simp only [] at hmem
      rcases List.mem_append.mp hmem with h | h
      · exact Or.inl h
      · exact Or.inr (Or.inl (List.mem_singleton.mp h))
    · rcases hnext _ _ hmem with h | h
      · rcases List.mem_append.mp h with h | h
        · exact Or.inl h
        · exact Or.inr (Or.inl (List.mem_singleton.mp h))
      · exact Or.inr (Or.inr h)

theorem flat_convMethod3_trace (env : Flat.ConvEnv) (png : PPath) (fs : Fs)
    (tr : List Invocation) (inv : Invocation)
    (hmem : inv ∈ (Flat.convMethod3 env png fs tr).trace) :
    inv ∈ tr ∨ inv = ⟨"magick", some 30⟩ ∨ inv = ⟨"convert", some 30⟩ := by
  unfold Flat.convMethod3 at hmem
  have hnext : ∀ (fs1 : Fs) (tr1 : List Invocation),
      inv ∈ ((fun fs1 tr1 => Flat.convTryIM env.convertRun "convert" png fs1 tr1
        (fun fs2 tr2 => Flat.convMethod4 env png fs2 tr2)) fs1 tr1).trace →
      inv ∈ tr1 ∨ inv = ⟨"convert", some 30⟩ := by
    intro fs1 tr1 h1
    have hinner : ∀ (fs2 : Fs) (tr2 : List Invocation),
        inv ∈ (Flat.convMethod4 env png fs2 tr2).trace → inv ∈ tr2 ∨ False :=
      fun fs2 tr2 h2 => Or.inl (flat_convMethod4_trace env png fs2 tr2 inv h2)
    rcases flat_convTryIM_trace False env.convertRun "convert" png fs1 tr1 _
        inv hinner h1 with h | h | h
    · exact Or.inl h
    · exact Or.inr h
    · exact absurd h not_false
  rcases flat_convTryIM_trace _ env.magickRun "magick" png fs tr _ inv hnext
      hmem with h | h | h
  · exact Or.inl h
  · exact Or.inr (Or.inl h)
  · exact Or.inr (Or.inr h)

theorem flat_convMethod2_trace (env : Flat.ConvEnv) (png : PPath) (fs : Fs)
    (inv : Invocation) (hmem : inv ∈ (Flat.convMethod2 env png fs).trace) :
    inv = ⟨"soffice", some 60⟩ ∨ inv = ⟨"magick", some 30⟩ ∨
      inv = ⟨"convert", some 30⟩ := by
  unfold Flat.convMethod2 at hmem
  rcases hm : env.macSoffice with _ | _ <;>
    simp only [hm, Bool.false_eq_true, if_false, if_true, reduceIte] at hmem
  · rcases flat_convMethod3_trace _ _ _ _ _ hmem with h | h
    · simp at h
    · exact Or.inr h
  · rcases hr : env.loRun with e | ⟨rc, o⟩ <;> simp only [hr] at hmem
    · rcases flat_convMethod3_trace _ _ _ _ _ hmem with h | h
      · exact Or.inl (List.mem_singleton.mp h)
      · exact Or.inr h
    · split at hmem
      · exact Or.inl (List.mem_singleton.mp hmem)
      · rcases flat_convMethod3_trace _ _ _ _ _ hmem with h | h
        · exact Or.inl (List.mem_singleton.mp h)
        · exact Or.inr h

theorem flat_convert_trace (env : Flat.ConvEnv) (p : PPath) (fs : Fs)
    (inv : Invocation) (hmem : inv ∈ (Flat.convert_emf_to_png env p fs).trace) :
    inv = ⟨"soffice", some 60⟩ ∨ inv = ⟨"magick", some 30⟩ ∨
      inv = ⟨"convert", some 30⟩ := by
  unfold Flat.convert_emf_to_png at hmem
  rcases ha : env.asposeImported with _ | _ <;>
    simp only [ha, Bool.false_eq_true, if_false, if_true, reduceIte] at hmem
  · exact flat_convMethod2_trace _ _ _ _ hmem
  · rcases hr : env.asposeRun with e | n <;> simp only [hr] at hmem
    · exact flat_convMethod2_trace _ _ _ _ hmem
    · split at hmem
      · simp at hmem
      · exact flat_convMethod2_trace _ _ _ _ hmem

/-- Counterexample to claim C4: in the package chain, with LibreOffice and
ImageMagick discovered, both external-process invocations are made with no
`timeout` keyword at all — an unbounded invocation occurs. -/
theorem conversion_timeout_counterexample :
    (⟨"soffice", none⟩ : Invocation) ∈
      (convert_emf_to_png
        ⟨false, .error "skip", false, false, true, false, .error "crash",
          true, false, .error "crash", .error "skip"⟩
        ⟨"image3", ".emf"⟩ (fun _ => none)).trace ∧
    (⟨"magick", none⟩ : Invocation) ∈
      (convert_emf_to_png
        ⟨false, .error "skip", false, false, true, false, .error "crash",
          true, false, .error "crash", .error "skip"⟩
        ⟨"image3", ".emf"⟩ (fun _ => none)).trace := by
  constructor <;> decide

/-- Claim C4 as amended: only the flat script bounds its external-process
conversion attempts — 60 seconds for the LibreOffice invocation and 30
seconds for each ImageMagick invocation — while the package chain invokes
every external process with no timeout. -/
theorem conversion_timeouts :
    (∀ (env : Flat.ConvEnv) (p : PPath) (fs : Fs) (inv : Invocation),
      inv ∈ (Flat.convert_emf_to_png env p fs).trace →
        inv = ⟨"soffice", some 60⟩ ∨ inv = ⟨"magick", some 30⟩ ∨
          inv = ⟨"convert", some 30⟩) ∧
    (∀ (env : ConvEnv) (p : PPath) (fs : Fs) (inv : Invocation),
      inv ∈ (convert_emf_to_png env p fs).trace → inv.timeoutSec = none) := by
  constructor
  · exact fun env p fs inv hmem => flat_convert_trace env p fs inv hmem
  · intro env p fs inv hmem
    unfold convert_emf_to_png at hmem
    rcases ha : env.asposeImported with _ | _ <;>
      simp only [ha, Bool.false_eq_true, if_false, if_true, reduceIte] at hmem
    · exact convMethod2_trace _ _ _ _ hmem
    · rcases hr : env.asposeRun with e | n <;> simp only [hr] at hmem
      · exact convMethod2_trace _ _ _ _ hmem
      · simp at hmem

/-- Witness for C4's amended theorem: a flat-chain run whose trace contains
the LibreOffice invocation with its 60-second timeout, and a package run
whose LibreOffice invocation carries no timeout. -/
theorem conversion_timeouts_witness :
    ((⟨"soffice", some 60⟩ : Invocation) ∈
      (Flat.convert_emf_to_png
        ⟨false, .error "skip", true, .error "timeout", .error "missing",
          .error "missing", false, false, .error "skip"⟩
        ⟨"image3", ".emf"⟩ (fun _ => none)).trace) ∧
    ((⟨"soffice", some 60⟩ : Invocation) = ⟨"soffice", some 60⟩ ∨
      (⟨"soffice", some 60⟩ : Invocation) = ⟨"magick", some 30⟩ ∨
      (⟨"soffice", some 60⟩ : Invocation) = ⟨"convert", some 30⟩) ∧
    ((⟨"soffice", none⟩ : Invocation) ∈
      (convert_emf_to_png
        ⟨false, .error "skip", false, false, true, false, .error "crash",
          false, false, .error "skip", .error "skip"⟩
        ⟨"image3", ".emf"⟩ (fun _ => none)).trace) ∧
    (⟨"soffice", none⟩ : Invocation).timeoutSec = none := by
  refine ⟨by decide, ?_, by decide, ?_⟩
  · exact conversion_timeouts.1
      ⟨false, .error "skip", true, .error "timeout", .error "missing",
        .error "missing", false, false, .error "skip"⟩
      ⟨"image3", ".emf"⟩ (fun _ => none) ⟨"soffice", some 60⟩ (by decide)
  · exact conversion_timeouts.2
      ⟨false, .error "skip", false, false, true, false, .error "crash",
        false, false, .error "skip", .error "skip"⟩
      ⟨"image3", ".emf"⟩ (fun _ => none) ⟨"soffice", none⟩ (by decide)

/-! Helper lemmas: every flat-chain success has a verified non-empty output. -/

theorem sizePos_spec (o : Option Nat) (h : sizePos o = true) :
    ∃ n, o = some n ∧ 0 < n := by
  rcases o with _ | n
  · exact absurd h (by simp [sizePos])
  · exact ⟨n, rfl, by simpa [sizePos] using h⟩

theorem flat_convMethod4_sound (env : Flat.ConvEnv) (png : PPath) (fs : Fs)
    (tr : List Invocation) (q : PPath)
    (h : (Flat.convMethod4 env png fs tr).res = some q) :
    ∃ n, (Flat.convMethod4 env png fs tr).fs q = some n ∧ 0 < n := by
  unfold Flat.convMethod4 at h ⊢
  rcases hip : (env.pilImported && env.pilEmfPlugin) with _ | _ <;>
    rcases hr : env.pilRun with e | n <;>
    simp only [hip, hr, Bool.false_eq_true, if_false, if_true, reduceIte] at h ⊢ <;>
    try exact absurd h (by simp)
  split at h <;> rename_i hsz
  · simp only [Option.some.injEq] at h
    subst h
    rw [if_pos hsz]
    exact sizePos_spec _ hsz
  · exact absurd h (by simp)

theorem flat_convTryIM_sound (run : Except String (Nat × Option Nat))
    (c : String) (png : PPath) (fs : Fs) (tr : List Invocation)
    (next : Fs → List Invocation → ConvResult) (q : PPath)
    (hnext : ∀ fs1 tr1, (next fs1 tr1).res = some q →
      ∃ n, (next fs1 tr1).fs q = some n ∧ 0 < n)
    (h : (Flat.convTryIM run c png fs tr next).res = some q) :
    ∃ n, (Flat.convTryIM run c png fs tr next).fs q = some n ∧ 0 < n := by
  unfold Flat.convTryIM at h ⊢
  rcases hr : run with e | ⟨rc, o⟩ <;> simp only [hr] at h ⊢
  · exact hnext _ _ h
  · split at h <;> rename_i hsz
    · simp only [Option.some.injEq] at h
      subst h
      rw [if_pos hsz]
      simp only [Bool.and_eq_true] at hsz
      exact sizePos_spec _ hsz.2
    · rw [if_neg hsz]
      exact hnext _ _ h

theorem flat_convMethod3_sound (env : Flat.ConvEnv) (png : PPath) (fs : Fs)
    (tr : List Invocation) (q : PPath)
    (h : (Flat.convMethod3 env png fs tr).res = some q) :
    ∃ n, (Flat.convMethod3 env png fs tr).fs q = some n ∧ 0 < n := by
  unfold Flat.convMethod3 at h ⊢
  refine flat_convTryIM_sound _ _ _ _ _ _ _ ?_ h
  intro fs1 tr1 h1
  refine flat_convTryIM_sound _ _ _ _ _ _ _ ?_ h1
  intro fs2 tr2 h2
  exact flat_convMethod4_sound env png fs2 tr2 q h2

theorem flat_convMethod2_sound (env : Flat.ConvEnv) (png : PPath) (fs : Fs)
    (q : PPath) (h : (Flat.convMethod2 env png fs).res = some q) :
    ∃ n, (Flat.convMethod2 env png fs).fs q = some n ∧ 0 < n := by
  unfold Flat.convMethod2 at h ⊢
  rcases hm : env.macSoffice with _ | _ <;>
    simp only [hm, Bool.false_eq_true, if_false, if_true, reduceIte] at h ⊢
  · exact flat_convMethod3_sound _ _ _ _ _ h
  · rcases hr : env.loRun with e | ⟨rc, o⟩ <;> simp only [hr] at h ⊢
    · exact flat_convMethod3_sound _ _ _ _ _ h
    · split at h <;> rename_i hsz
      · simp only [Option.some.injEq] at h
        subst h
        rw [if_pos hsz]
        simp only [Bool.and_eq_true] at hsz
        exact sizePos_spec _ hsz.2
      · rw [if_neg hsz]
        exact flat_convMethod3_sound _ _ _ _ _ h

/-- Counterexample to claim C7: the package chain's LibreOffice attempt
checks only `png_path.exists()`.  With LibreOffice found and its run
exiting 0 while producing an empty (0-byte) PNG, the package chain declares
success and returns the PNG path even though the output is empty. -/
theorem conversion_verify_counterexample :
    (convert_emf_to_png
      ⟨false, .error "skip", true, true, false, false, .ok (some 0),
        false, false, .error "skip", .error "skip"⟩
      ⟨"image3", ".emf"⟩ (fun _ => none)).res = some ⟨"image3", ".png"⟩ ∧
    (convert_emf_to_png
      ⟨false, .error "skip", true, true, false, false, .ok (some 0),
        false, false, .error "skip", .error "skip"⟩
      ⟨"image3", ".emf"⟩ (fun _ => none)).fs ⟨"image3", ".png"⟩ = some 0 := by
  constructor <;> decide

/-- Claim C7 as amended: the flat script's chain declares success only
after verifying that the expected PNG output exists and is non-empty (any
attempt failing that verification falls through to the next engine), while
the package chain verifies only existence and can succeed on an empty
output file. -/
theorem flat_conversion_verifies_output (env : Flat.ConvEnv) (p : PPath)
    (fs : Fs) (q : PPath)
    (h : (Flat.convert_emf_to_png env p fs).res = some q) :
    ∃ n, (Flat.convert_emf_to_png env p fs).fs q = some n ∧ 0 < n := by
  unfold Flat.convert_emf_to_png at h ⊢
  rcases ha : env.asposeImported with _ | _ <;>
    simp only [ha, Bool.false_eq_true, if_false, if_true, reduceIte] at h ⊢
  · exact flat_convMethod2_sound _ _ _ _ h
  · rcases hr : env.asposeRun with e | n <;> simp only [hr] at h ⊢
    · exact flat_convMethod2_sound _ _ _ _ h
    · split at h <;> rename_i hsz
      · simp only [Option.some.injEq] at h
        subst h
        rw [if_pos hsz]
        exact sizePos_spec _ hsz
      · rw [if_neg hsz]
        exact flat_convMethod2_sound _ _ _ _ h

/-- Witness for C7's amended theorem: a successful Aspose run in the flat
chain, whose output is verified to be a 5-byte PNG. -/
theorem flat_conversion_verifies_output_witness :
    (Flat.convert_emf_to_png
      ⟨true, .ok 5, false, .error "skip", .error "skip", .error "skip",
        false, false, .error "skip"⟩
      ⟨"image3", ".emf"⟩ (fun _ => none)).res = some ⟨"image3", ".png"⟩ ∧
    ∃ n, (Flat.convert_emf_to_png
      ⟨true, .ok 5, false, .error "skip", .error "skip", .error "skip",
        false, false, .error "skip"⟩
      ⟨"image3", ".emf"⟩ (fun _ => none)).fs ⟨"image3", ".png"⟩ = some n ∧
      0 < n :=
  ⟨by decide,
   flat_conversion_verifies_output
     ⟨true, .ok 5, false, .error "skip", .error "skip", .error "skip",
       false, false, .error "skip"⟩
     ⟨"image3", ".emf"⟩ (fun _ => none) ⟨"image3", ".png"⟩ (by decide)⟩

/-! Helper lemmas about the recognition renamer. -/

theorem process_image_threaded_orig (env : OcrEnv) (p : PPath)
    (x : PPath × String × String) (h : process_image_threaded env p = some x) :
    x.1 = p := by
  unfold process_image_threaded at h
  rcases hr : ocrRun env with e | frags <;> rw [hr] at h
  · simp at h
  · simp only [] at h
    split at h
    · simp at h
    · simp only [Option.some.injEq] at h
      subst h
      rfl

theorem renameOne_fails (fs : List PPath) (p : PPath) (env : OcrEnv)
    (h : taskFails (p, env)) : (renameOne fs p env).2 = p := by
  rcases h with h | ⟨e, he⟩
  · simp [renameOne, h]
  · unfold renameOne
    rcases hp : process_image_threaded env p with _ | x
    · rfl
    · have hx1 : x.1 = p := process_image_threaded_orig env p x hp
      rcases x with ⟨orig, nm, tx⟩
      simp only [] at hx1
      subst hx1
      simp only []
      split
      · rfl
      · rw [he]

/-- Claim C8: the renaming stage is exception-isolated.  Every submitted
image yields a final path (no task aborts the stage), and any image whose
task raises at any step — decode, color-normalize, resize, OCR inference
(all collapsing its result to `None`) or the final rename — keeps its
original path, independently of the other images, the directory state and
the other tasks' outcomes. -/
theorem renamer_isolates_failures (ts : List (PPath × OcrEnv)) (fs : List PPath) :
    (renameStage ts fs).2.length = ts.length ∧
    ∀ (i : Nat) (t : PPath × OcrEnv), ts[i]? = some t → taskFails t →
      ((renameStage ts fs).2)[i]? = some t.1 := by
  induction ts generalizing fs with
  | nil =>
    refine ⟨rfl, fun i t hget _ => ?_⟩
    simp at hget
  | cons hd tl ih =>
    refine ⟨by simp [renameStage, (ih (renameOne fs hd.1 hd.2).1).1], ?_⟩
    intro i t hget hfail
    have hstage : (renameStage (hd :: tl) fs).2 =
        (renameOne fs hd.1 hd.2).2 ::
          (renameStage tl (renameOne fs hd.1 hd.2).1).2 := rfl
    cases i with
    | zero =>
      simp only [List.getElem?_cons_zero, Option.some.injEq] at hget
      subst hget
      rw [hstage, List.getElem?_cons_zero,
        renameOne_fails fs hd.1 hd.2 hfail]
    | succ i =>
      simp only [List.getElem?_cons_succ] at hget
      rw [hstage, List.getElem?_cons_succ]
      exact (ih (renameOne fs hd.1 hd.2).1).2 i t hget hfail

/-- Witness for C8: one image whose decode raises; its final path is its
original path. -/
theorem renamer_isolates_failures_witness :
    ([((⟨"pic", ".png"⟩ : PPath),
        (⟨.error "IOError", fun i => .ok i, fun i => .ok i, fun _ => .ok [],
          .ok ()⟩ : OcrEnv))][0]? =
      some ((⟨"pic", ".png"⟩ : PPath),
        (⟨.error "IOError", fun i => .ok i, fun i => .ok i, fun _ => .ok [],
          .ok ()⟩ : OcrEnv))) ∧
    taskFails ((⟨"pic", ".png"⟩ : PPath),
      (⟨.error "IOError", fun i => .ok i, fun i => .ok i, fun _ => .ok [],
        .ok ()⟩ : OcrEnv)) ∧
    ((renameStage
        [((⟨"pic", ".png"⟩ : PPath),
          (⟨.error "IOError", fun i => .ok i, fun i => .ok i, fun _ => .ok [],
            .ok ()⟩ : OcrEnv))] []).2)[0]? = some (⟨"pic", ".png"⟩ : PPath) := by
  refine ⟨rfl, Or.inl rfl, ?_⟩
  exact (renamer_isolates_failures
    [((⟨"pic", ".png"⟩ : PPath),
      (⟨.error "IOError", fun i => .ok i, fun i => .ok i, fun _ => .ok [],
        .ok ()⟩ : OcrEnv))] []).2 0 _ rfl (Or.inl rfl)

/-! Helper lemmas about the collision-probe loop. -/

theorem findSlotAux_spec (fs : List PPath) (orig : PPath) (c : Nat → PPath) :
    ∀ fuel k : Nat,
      (∃ m, k ≤ m ∧ m < k + fuel ∧ ¬(c m ∈ fs ∧ c m ≠ orig)) →
      (∀ j, j < k → c j ∈ fs ∧ c j ≠ orig) →
      ¬(c (findSlotAux fs orig c fuel k) ∈ fs ∧
          c (findSlotAux fs orig c fuel k) ≠ orig) ∧
        ∀ j, j < findSlotAux fs orig c fuel k → c j ∈ fs ∧ c j ≠ orig := by
  intro fuel
  induction fuel with
  | zero =>
    rintro k ⟨m, hkm, hm, _⟩ _
    omega
  | succ fuel ih =>
    intro k hex hpre
    unfold findSlotAux
    by_cases hocc : c k ∈ fs ∧ c k ≠ orig
    · rw [if_pos hocc]
      apply ih (k + 1)
      · obtain ⟨m, hkm, hm, hfree⟩ := hex
        have hmk : m ≠ k := fun he => hfree (he ▸ hocc)
        exact ⟨m, by omega, by omega, hfree⟩
      · intro j hj
        rcases Nat.lt_succ_iff_lt_or_eq.mp hj with h | h
        · exact hpre j h
        · exact h ▸ hocc
    · rw [if_neg hocc]
      exact ⟨hocc, hpre⟩

theorem exists_free_slot (fs : List PPath) (orig : PPath) (c : Nat → PPath)
    (hnd : ((List.range (fs.length + 1)).map c).Nodup) :
    ∃ m, m ≤ fs.length ∧ ¬(c m ∈ fs ∧ c m ≠ orig) := by
  by_contra hall
  push_neg at hall
  have hsub : (List.range (fs.length + 1)).map c ⊆ fs := by
    intro x hx
    rcases List.mem_map.mp hx with ⟨m, hm, rfl⟩
    exact (hall m (Nat.lt_succ_iff.mp (List.mem_range.mp hm))).1
  have hle := (List.subperm_of_subset hnd hsub).length_le
  simp only [List.length_map, List.length_range] at hle
  omega

theorem slotIdx_spec (fs : List PPath) (orig : PPath) (c : Nat → PPath)
    (hnd : ((List.range (fs.length + 1)).map c).Nodup) :
    ¬(c (slotIdx fs orig c) ∈ fs ∧ c (slotIdx fs orig c) ≠ orig) ∧
      ∀ j, j < slotIdx fs orig c → c j ∈ fs ∧ c j ≠ orig := by
  obtain ⟨m, hm, hfree⟩ := exists_free_slot fs orig c hnd
  exact findSlotAux_spec fs orig c (fs.length + 1) 0
    ⟨m, Nat.zero_le m, by omega, hfree⟩ (fun j hj => absurd hj (Nat.not_lt_zero j))

theorem renameFile_length (fs : List PPath) (o n : PPath) (ho : o ∈ fs) :
    (renameFile fs o n).length = fs.length := by
  unfold renameFile
  split
  · rfl
  · rw [List.length_cons, List.length_erase_of_mem ho]
    have hpos : 0 < fs.length := List.length_pos.mpr (List.ne_nil_of_mem ho)
    omega

theorem mem_renameFile_self (fs : List PPath) (o n : PPath) (ho : o ∈ fs) :
    n ∈ renameFile fs o n := by
  unfold renameFile
  split
  · rename_i h
    exact h ▸ ho
  · exact List.mem_cons_self _ _

/-- Claim C3: in the rename-collision loop, the chosen path for a file is
the first free probe slot — `base.ext`, then `base_1.ext`, `base_2.ext`, …
in increasing integer order, every earlier slot being an existing file
other than the original — and it never overwrites an existing different
file; and two files with the same sanitized base name (and extension),
renamed one after the other, end up with distinct final paths.  The
distinctness hypothesis on the probe names is a property of decimal
numerals that holds for every base name; it is discharged by computation in
the witness. -/
theorem renamer_distinct_paths (fs : List PPath) (o1 o2 : PPath) (base : String)
    (h1 : o1 ∈ fs) (h2 : o2 ∈ fs) (h12 : o1 ≠ o2) (hext : o2.ext = o1.ext)
    (hnd : ((List.range (fs.length + 1)).map (cand base o1.ext)).Nodup) :
    ¬(findNewPath fs o1 base ∈ fs ∧ findNewPath fs o1 base ≠ o1) ∧
    (∀ j, j < slotIdx fs o1 (cand base o1.ext) →
      cand base o1.ext j ∈ fs ∧ cand base o1.ext j ≠ o1) ∧
    (¬(findNewPath (renameFile fs o1 (findNewPath fs o1 base)) o2 base ∈
        renameFile fs o1 (findNewPath fs o1 base) ∧
        findNewPath (renameFile fs o1 (findNewPath fs o1 base)) o2 base ≠ o2)) ∧
    findNewPath (renameFile fs o1 (findNewPath fs o1 base)) o2 base ≠
      findNewPath fs o1 base := by
  have spec1 := slotIdx_spec fs o1 (cand base o1.ext) hnd
  have hp1 : findNewPath fs o1 base =
      cand base o1.ext (slotIdx fs o1 (cand base o1.ext)) := rfl
  have hnd2 : ((List.range
      ((renameFile fs o1 (findNewPath fs o1 base)).length + 1)).map
        (cand base o2.ext)).Nodup := by
    rw [hext, renameFile_length fs o1 _ h1]
    exact hnd
  have spec2 := slotIdx_spec (renameFile fs o1 (findNewPath fs o1 base)) o2
    (cand base o2.ext) hnd2
  have hp2 : findNewPath (renameFile fs o1 (findNewPath fs o1 base)) o2 base =
      cand base o2.ext (slotIdx (renameFile fs o1 (findNewPath fs o1 base)) o2
        (cand base o2.ext)) := rfl
  refine ⟨hp1 ▸ spec1.1, spec1.2, hp2 ▸ spec2.1, ?_⟩
  have hmem1 : findNewPath fs o1 base ∈
      renameFile fs o1 (findNewPath fs o1 base) :=
    mem_renameFile_self fs o1 _ h1
  rcases not_and_or.mp (hp2 ▸ spec2.1) with hfree | hne
  · intro hEq
    rw [hEq] at hfree
    exact hfree hmem1
  · rw [not_not] at hne
    rw [hne]
    by_cases hcase : findNewPath fs o1 base = o1
    · rw [hcase]
      exact fun hEq => h12 hEq.symm
    · have hnotin : findNewPath fs o1 base ∉ fs := by
        intro hin
        exact (hp1 ▸ spec1.1) ⟨hin, hcase⟩
      intro hEq
      exact hnotin (hEq ▸ h2)

/-- Witness for C3: two images `a.png` and `b.png` both proposing base name
`x` while `x.png` already exists; the first receives `x_1.png`, the second
`x_2.png`, and the two final paths differ. -/
theorem renamer_distinct_paths_witness :
    ((⟨"a", ".png"⟩ : PPath) ∈
      [(⟨"a", ".png"⟩ : PPath), ⟨"b", ".png"⟩, ⟨"x", ".png"⟩]) ∧
    ((⟨"b", ".png"⟩ : PPath) ∈
      [(⟨"a", ".png"⟩ : PPath), ⟨"b", ".png"⟩, ⟨"x", ".png"⟩]) ∧
    (⟨"a", ".png"⟩ : PPath) ≠ ⟨"b", ".png"⟩ ∧
    (⟨"b", ".png"⟩ : PPath).ext = (⟨"a", ".png"⟩ : PPath).ext ∧
    ((List.range
      (([(⟨"a", ".png"⟩ : PPath), ⟨"b", ".png"⟩, ⟨"x", ".png"⟩].length) + 1)).map
        (cand "x" (⟨"a", ".png"⟩ : PPath).ext)).Nodup ∧
    findNewPath [(⟨"a", ".png"⟩ : PPath), ⟨"b", ".png"⟩, ⟨"x", ".png"⟩]
      ⟨"a", ".png"⟩ "x" = ⟨"x_1", ".png"⟩ ∧
    findNewPath (renameFile [(⟨"a", ".png"⟩ : PPath), ⟨"b", ".png"⟩, ⟨"x", ".png"⟩]
        ⟨"a", ".png"⟩
        (findNewPath [(⟨"a", ".png"⟩ : PPath), ⟨"b", ".png"⟩, ⟨"x", ".png"⟩]
          ⟨"a", ".png"⟩ "x"))
      ⟨"b", ".png"⟩ "x" = ⟨"x_2", ".png"⟩ ∧
    findNewPath (renameFile [(⟨"a", ".png"⟩ : PPath), ⟨"b", ".png"⟩, ⟨"x", ".png"⟩]
        ⟨"a", ".png"⟩
        (findNewPath [(⟨"a", ".png"⟩ : PPath), ⟨"b", ".png"⟩, ⟨"x", ".png"⟩]
          ⟨"a", ".png"⟩ "x"))
      ⟨"b", ".png"⟩ "x" ≠
      findNewPath [(⟨"a", ".png"⟩ : PPath), ⟨"b", ".png"⟩, ⟨"x", ".png"⟩]
        ⟨"a", ".png"⟩ "x" := by
  refine ⟨by decide, by decide, by decide, by decide, by decide,
    by decide, by decide, ?_⟩
  exact (renamer_distinct_paths
    [(⟨"a", ".png"⟩ : PPath), ⟨"b", ".png"⟩, ⟨"x", ".png"⟩]
    ⟨"a", ".png"⟩ ⟨"b", ".png"⟩ "x"
    (by decide) (by decide) (by decide) (by decide) (by decide)).2.2.2

/-! Helper lemmas about sanitization. -/

theorem keepChar_not_illegal (c : Char) (h : keepChar c = true) :
    isIllegalChar c = false := by
  rcases hb : isIllegalChar c with _ | _
  · rfl
  · have hmem : c ∈ illegalChars := by
      simpa [isIllegalChar] using hb
    fin_cases hmem <;> revert h <;> decide

theorem keepChar_not_space (c : Char) (h : keepChar c = true) :
    isSpaceChar c = false := by
  rcases hb : isSpaceChar c with _ | _
  · rfl
  · have hc : ((((c = ' ' ∨ c = '\t') ∨ c = '\n') ∨ c = '\r') ∨ c = '\x0b') ∨
        c = '\x0c' := by
      simpa [isSpaceChar] using hb
    rcases hc with ⟨⟨⟨⟨rfl | rfl⟩ | rfl⟩ | rfl⟩ | rfl⟩ | rfl <;>
      revert h <;> decide

theorem collapseAux_eq_self (l : List Char)
    (hl : ∀ c ∈ l, isSpaceChar c = false) : ∀ b, collapseAux b l = l := by
  induction l with
  | nil => intro b; rfl
  | cons a as ih =>
    intro b
    have ha : isSpaceChar a = false := hl a (List.mem_cons_self a as)
    simp only [collapseAux, ha, Bool.false_eq_true, if_false]
    rw [ih (fun c hc => hl c (List.mem_cons_of_mem a hc)) false]

theorem head?_dropWhile_underscore (xs : List Char) (c : Char)
    (h : (xs.dropWhile (fun c => c == '_')).head? = some c) : c ≠ '_' := by
  have hspec := List.head?_dropWhile_not (fun c => c == '_') xs
  rw [h] at hspec
  simpa using hspec

theorem stripUnderscores_eq_append (l : List Char) :
    ∃ t, dropU l = stripUnderscores l ++ t := by
  refine ⟨((dropU l).reverse.takeWhile (fun c => c == '_')).reverse, ?_⟩
  unfold stripUnderscores
  conv_lhs => rw [← List.reverse_reverse (dropU l),
    ← List.takeWhile_append_dropWhile (fun c => c == '_') (dropU l).reverse]
  rw [List.reverse_append]

theorem stripUnderscores_subset (l : List Char) : stripUnderscores l ⊆ l := by
  intro x hx
  obtain ⟨t, ht⟩ := stripUnderscores_eq_append l
  have hxd : x ∈ dropU l := by
    rw [ht]
    exact List.mem_append_left t hx
  exact (List.dropWhile_sublist (fun c => c == '_')).subset hxd

theorem stripUnderscores_head (l : List Char) (c : Char)
    (h : (stripUnderscores l).head? = some c) : c ≠ '_' := by
  obtain ⟨t, ht⟩ := stripUnderscores_eq_append l
  rcases hs : stripUnderscores l with _ | ⟨a, as⟩
  · rw [hs] at h
    simp at h
  · rw [hs] at h
    simp only [List.head?_cons, Option.some.injEq] at h
    subst h
    have hda : (dropU l).head? = some a := by
      rw [ht, hs]
      rfl
    exact head?_dropWhile_underscore l a hda

theorem stripUnderscores_getLast (l : List Char) (c : Char)
    (h : (stripUnderscores l).getLast? = some c) : c ≠ '_' := by
  unfold stripUnderscores at h
  rw [List.getLast?_reverse] at h
  exact head?_dropWhile_underscore (dropU l).reverse c h

theorem stripUnderscores_eq_self (l : List Char)
    (hh : ∀ c, l.head? = some c → c ≠ '_')
    (hl : ∀ c, l.getLast? = some c → c ≠ '_') :
    stripUnderscores l = l := by
  have h1 : dropU l = l := by
    rcases l with _ | ⟨a, as⟩
    · rfl
    · have ha : a ≠ '_' := hh a rfl
      simp [dropU, List.dropWhile_cons, ha]
  unfold stripUnderscores
  rw [h1]
  have h2 : l.reverse.dropWhile (fun c => c == '_') = l.reverse := by
    rcases hr : l.reverse with _ | ⟨a, as⟩
    · rfl
    · have ha : l.getLast? = some a := by
        rw [← List.head?_reverse, hr]
        rfl
      have hne : a ≠ '_' := hl a ha
      simp [List.dropWhile_cons, hne]
  rw [h2, List.reverse_reverse]

theorem sanitize_fixed (r : List Char)
    (hkeep : ∀ c ∈ r, keepChar c = true)
    (hhead : ∀ c, r.head? = some c → c ≠ '_')
    (hlast : ∀ c, r.getLast? = some c → c ≠ '_')
    (hne : r ≠ []) (hlen : r.length ≤ 50) :
    sanitizeList r = r := by
  have h1 : List.filter (fun c => !isIllegalChar c) r = r :=
    List.filter_eq_self.mpr (fun c hc => by
      rw [keepChar_not_illegal c (hkeep c hc)]
      rfl)
  have h2 : collapseSpaces r = r :=
    collapseAux_eq_self r (fun c hc => keepChar_not_space c (hkeep c hc)) false
  have h3 : List.filter keepChar r = r := List.filter_eq_self.mpr hkeep
  have h4 : stripUnderscores r = r := stripUnderscores_eq_self r hhead hlast
  have h5 : r.isEmpty = false := List.isEmpty_eq_false.mpr hne
  simp only [sanitizeList, h1, h2, h3, h4, h5, Bool.false_eq_true, if_false]
  exact List.take_of_length_le hlen

theorem sanitizeList_idem (s : List Char)
    (h : (sanitizeList s).getLast? ≠ some '_') :
    sanitizeList (sanitizeList s) = sanitizeList s := by
  by_cases hemp : (stripUnderscores
      ((collapseSpaces (List.filter (fun c => !isIllegalChar c) s)).filter
        keepChar)).isEmpty
  · have hs : sanitizeList s = "untitled".data := by
      show (if (stripUnderscores
          ((collapseSpaces (List.filter (fun c => !isIllegalChar c) s)).filter
            keepChar)).isEmpty then "untitled".data else _) = _
      rw [if_pos hemp]
    rw [hs]
    decide
  · have hs : sanitizeList s = (stripUnderscores
        ((collapseSpaces (List.filter (fun c => !isIllegalChar c) s)).filter
          keepChar)).take 50 := by
      show (if (stripUnderscores
          ((collapseSpaces (List.filter (fun c => !isIllegalChar c) s)).filter
            keepChar)).isEmpty then "untitled".data else _) = _
      rw [if_neg hemp]
    rw [hs] at h ⊢
    have ht4ne : stripUnderscores
        ((collapseSpaces (List.filter (fun c => !isIllegalChar c) s)).filter
          keepChar) ≠ [] := by
      intro he
      rw [he] at hemp
      exact hemp rfl
    refine sanitize_fixed _ ?_ ?_ ?_ ?_ ?_
    · intro c hc
      have hc4 := List.mem_of_mem_take hc
      have hc3 := stripUnderscores_subset _ hc4
      exact (List.mem_filter.mp hc3).2
    · intro c hc
      rw [List.head?_take] at hc
      rw [if_neg (by decide : ¬((50 : Nat) = 0))] at hc
      exact stripUnderscores_head _ c hc
    · intro c hc hceq
      subst hceq
      exact h hc
    · intro he
      rcases List.take_eq_nil_iff.mp he with h50 | hl
      · exact absurd h50 (by decide)
      · exact ht4ne hl
    · exact List.length_take_le 50 _

/-- Counterexample to claim C6: on 49 `a`s followed by `_b`, sanitization
strips nothing and truncation to 50 characters cuts inside `_b`, leaving a
trailing underscore; a second sanitization strips that underscore, so
`sanitize_filename` is not idempotent. -/
theorem sanitize_filename_not_idempotent :
    sanitize_filename (String.mk (List.replicate 49 'a' ++ ['_', 'b'])) =
      String.mk (List.replicate 49 'a' ++ ['_']) ∧
    sanitize_filename (sanitize_filename
        (String.mk (List.replicate 49 'a' ++ ['_', 'b']))) ≠
      sanitize_filename (String.mk (List.replicate 49 'a' ++ ['_', 'b'])) := by
  constructor <;> decide

/-- Claim C6 as amended: `sanitize_filename` is idempotent on every input
whose sanitized result does not end with an underscore.  (Stripping of
leading/trailing underscores happens before the truncation to 50
characters, so truncation can expose a trailing underscore that only a
second application strips; on all other inputs a second application
changes nothing.) -/
theorem sanitize_filename_idem (s : String)
    (h : (sanitize_filename s).data.getLast? ≠ some '_') :
    sanitize_filename (sanitize_filename s) = sanitize_filename s := by
  have hl : (sanitizeList s.data).getLast? ≠ some '_' := h
  show String.mk (sanitizeList (sanitizeList s.data)) =
    String.mk (sanitizeList s.data)
  rw [sanitizeList_idem s.data hl]

/-- Witness for C6's amended theorem at `"hello world"`, which sanitizes to
`"hello_world"`. -/
theorem sanitize_filename_idem_witness :
    ((sanitize_filename "hello world").data.getLast? ≠ some '_') ∧
    sanitize_filename "hello world" = "hello_world" ∧
    sanitize_filename (sanitize_filename "hello world") =
      sanitize_filename "hello world" :=
  ⟨by decide, by decide, sanitize_filename_idem "hello world" (by decide)⟩
